import Mathlib

/-!
Verification development for the `ghttp` library: a chi-router walker that
emits a Swagger 2.0 document from runtime type information, plus generic
JSON request/response handler adapters.

The Go source consists of two files: `handlers.go` (package `ghttp`) and a
chi adapter file (package `chi`, functions `HandlerFunc`, `initializeDoc`,
`addDefinition`, `getName`, `getProperty`).  The definitions below are a
shallow embedding of those functions together with the small slice of the
pinned dependency `github.com/go-openapi/spec v0.21.0` that they call
(`BooleanProperty`, `ArrayProperty`, `BodyParam`, `PathParam`,
`RefProperty`, `Operation.AddParam`, `Operation.RespondsWith`, ...).
-/

namespace GHttp

/-! ## Type descriptors

A shallow embedding of the `reflect.Type` values the converter inspects.
`getProperty` first switches on `t.String()` (exactly two special names,
`uuid.UUID` and `date.DateString`) and then on `t.Kind()`; we give the two
specially named types their own constructors and give every kind handled by
the switch its own constructor.  All kinds that fall into the `default:`
branch of the Go switch (map, chan, func, interface, complex64/128,
uintptr, unsafe pointer, invalid) are collapsed into `other kind name`,
carrying the kind's print name and the type's declared name. -/

mutual

inductive Typ : Type where
  | uuidUUID : Typ
  | dateDateString : Typ
  | bool : Typ
  | int : Typ
  | int8 : Typ
  | int16 : Typ
  | int32 : Typ
  | int64 : Typ
  | uint : Typ
  | uint8 : Typ
  | uint16 : Typ
  | uint32 : Typ
  | uint64 : Typ
  | float32 : Typ
  | float64 : Typ
  | array (elem : Typ) : Typ
  | slice (elem : Typ) : Typ
  | pointer (elem : Typ) : Typ
  | string : Typ
  | structT (name : String) (fields : Fields) : Typ
  | other (kind : String) (name : String) : Typ

/-- Struct fields in declaration order: field name, the value of the `json`
struct tag (the string `f.Tag.Get("json")` returns), and the field type. -/
inductive Fields : Type where
  | nil : Fields
  | cons (fname : String) (jsonTag : String) (ftype : Typ) (rest : Fields) : Fields

end

/-- Fields as a plain list of (field name, json tag, type) triples, used to
state theorems with ordinary list combinators. -/
def Fields.toList : Fields → List (String × String × Typ)
  | .nil => []
  | .cons n tag t rest => (n, tag, t) :: rest.toList

/-- The declared name `t.Name()` of a type descriptor.  Unnamed composite
types (arrays, slices, pointers, anonymous maps...) have an empty name; the
two specially named types are `UUID` and `DateString`. -/
def typName : Typ → String
  | .uuidUUID => "UUID"
  | .dateDateString => "DateString"
  | .bool => "bool"
  | .int => "int"
  | .int8 => "int8"
  | .int16 => "int16"
  | .int32 => "int32"
  | .int64 => "int64"
  | .uint => "uint"
  | .uint8 => "uint8"
  | .uint16 => "uint16"
  | .uint32 => "uint32"
  | .uint64 => "uint64"
  | .float32 => "float32"
  | .float64 => "float64"
  | .array _ => ""
  | .slice _ => ""
  | .pointer _ => ""
  | .string => "string"
  | .structT n _ => n
  | .other _ n => n

/-- Character-level rendering of `strings.ReplaceAll(s, "/", ".")`. -/
def replaceSlashDot (s : String) : String :=
  ⟨s.toList.map (fun c => if c = '/' then '.' else c)⟩

/-- Embedding of `getName` (chi adapter): pointer types prepend `*` to the
pointee's name, every other type uses `t.Name()` with `/` replaced by `.`. -/
def getName : Typ → String
  | .pointer e => "*" ++ getName e
  | t => replaceSlashDot (typName t)

/-! ## Schema nodes

The subset of `spec.Schema` the source populates: `Type`, `Format`,
`Nullable`, `Items`, `Properties` and `Ref`.  Properties model the Go map
`spec.SchemaProperties` as an association list with Go-map assignment
semantics (replace the existing entry for a key, else append). -/

inductive Schema : Type where
  | mk (type : List String) (format : String) (nullable : Bool)
       (items : Option Schema) (properties : List (String × Schema))
       (ref : String) : Schema

def Schema.type : Schema → List String
  | .mk t _ _ _ _ _ => t

def Schema.format : Schema → String
  | .mk _ f _ _ _ _ => f

def Schema.nullable : Schema → Bool
  | .mk _ _ n _ _ _ => n

def Schema.items : Schema → Option Schema
  | .mk _ _ _ i _ _ => i

def Schema.properties : Schema → List (String × Schema)
  | .mk _ _ _ _ p _ => p

def Schema.ref : Schema → String
  | .mk _ _ _ _ _ r => r

/-- The Go statement `property.Nullable = true` on a non-nil schema. -/
def Schema.withNullable : Schema → Schema
  | .mk t f _ i p r => .mk t f true i p r

/-- Dependency `spec.BooleanProperty`. -/
def booleanProperty : Schema := .mk ["boolean"] "" false none [] ""

/-- Dependency `spec.StringProperty`. -/
def stringProperty : Schema := .mk ["string"] "" false none [] ""

/-- Dependency `spec.StrFmtProperty`. -/
def strFmtProperty (format : String) : Schema := .mk ["string"] format false none [] ""

/-- Dependency `spec.DateProperty`. -/
def dateProperty : Schema := .mk ["string"] "date" false none [] ""

/-- Dependency `spec.Int8Property`. -/
def int8Property : Schema := .mk ["integer"] "int8" false none [] ""

/-- Dependency `spec.Int16Property`. -/
def int16Property : Schema := .mk ["integer"] "int16" false none [] ""

/-- Dependency `spec.Int32Property`. -/
def int32Property : Schema := .mk ["integer"] "int32" false none [] ""

/-- Dependency `spec.Int64Property`. -/
def int64Property : Schema := .mk ["integer"] "int64" false none [] ""

/-- Dependency `spec.Float32Property`. -/
def float32Property : Schema := .mk ["number"] "float" false none [] ""

/-- Dependency `spec.Float64Property`. -/
def float64Property : Schema := .mk ["number"] "double" false none [] ""

/-- Dependency `spec.ArrayProperty(items)`: when `items` is nil the result is
an array schema with no items, otherwise items is attached. -/
def arrayProperty : Option Schema → Schema
  | none => .mk ["array"] "" false none [] ""
  | some s => .mk ["array"] "" false (some s) [] ""

/-- Dependency `spec.RefProperty(name)`: a schema holding only a `$ref`. -/
def refProperty (name : String) : Schema := .mk [] "" false none [] name

/-- The struct branch of `getProperty` builds
`spec.Schema{SchemaProps: spec.SchemaProps{Properties: ...}}`: only the
properties map is populated (no `type` field is set). -/
def objectSchema (props : List (String × Schema)) : Schema :=
  .mk [] "" false none props ""

/-! ## Go-map association lists -/

/-- Go map assignment `m[k] = v` on an association-list model: replace the
first entry with key `k`, else append. -/
def insertA {β : Type} : List (String × β) → String → β → List (String × β)
  | [], k, v => [(k, v)]
  | (k', v') :: rest, k, v =>
    if k' = k then (k, v) :: rest else (k', v') :: insertA rest k v

/-- Go map read `m[k]` on an association-list model. -/
def lookupA {β : Type} : List (String × β) → String → Option β
  | [], _ => none
  | (k', v') :: rest, k => if k' = k then some v' else lookupA rest k

/-! ## Results of Go computations

The converter can log diagnostics (`log.Printf`) and, on one input shape,
dereference a nil pointer and panic; `PResult` is the shallow embedding of
both effects (a panic aborts the computation, so no log is carried out of a
panicking run). -/

inductive PResult (α : Type) : Type where
  | panics : PResult α
  | ok (val : α) (log : List String) : PResult α

def PResult.bind {α β : Type} : PResult α → (α → PResult β) → PResult β
  | .panics, _ => .panics
  | .ok a log, f =>
    match f a with
    | .panics => .panics
    | .ok b log2 => .ok b (log ++ log2)

/-- The first comma-separated token of a struct tag:
`strings.Split(tag, ",")[0]`. -/
def firstTagToken (tag : String) : String :=
  ⟨tag.toList.takeWhile (fun c => c ≠ ',')⟩

/-- The diagnostic `log.Printf("Unknown kind for swagger property: %s %s\n", getName(t), t.Kind())`. -/
def unknownKindMsg (t : Typ) (kind : String) : String :=
  "Unknown kind for swagger property: " ++ getName t ++ " " ++ kind ++ "\n"

mutual

/-- Embedding of `getProperty` (chi adapter, lines 132-204).  It first
matches `t.String()` against the two special names, then switches on the
kind.  The pointer branch runs `property := getProperty(t.Elem());
property.Nullable = true` with no nil check, so a pointer whose pointee
yields no schema dereferences a nil `*spec.Schema` and panics. -/
def getProperty : Typ → PResult (Option Schema)
  | .uuidUUID => .ok (some (strFmtProperty "uuid")) []
  | .dateDateString => .ok (some dateProperty) []
  | .bool => .ok (some booleanProperty) []
  | .int => .ok (some int64Property) []
  | .int8 => .ok (some int8Property) []
  | .int16 => .ok (some int16Property) []
  | .int32 => .ok (some int32Property) []
  | .int64 => .ok (some int64Property) []
  | .uint => .ok (some int64Property) []
  | .uint8 => .ok (some int8Property) []
  | .uint16 => .ok (some int16Property) []
  | .uint32 => .ok (some int32Property) []
  | .uint64 => .ok (some int64Property) []
  | .float32 => .ok (some float32Property) []
  | .float64 => .ok (some float64Property) []
  | .array e =>
    match getProperty e with
    | .panics => .panics
    | .ok r log => .ok (some (arrayProperty r)) log
  | .slice e =>
    match getProperty e with
    | .panics => .panics
    | .ok r log => .ok (some (arrayProperty r)) log
  | .pointer e =>
    match getProperty e with
    | .panics => .panics
    | .ok none _ => .panics
    | .ok (some s) log => .ok (some s.withNullable) log
  | .string => .ok (some stringProperty) []
  | .structT _ fields =>
    match collectProps fields with
    | .panics => .panics
    | .ok ps log =>
      .ok (some (objectSchema (ps.foldl (fun acc kv => insertA acc kv.1 kv.2) []))) log
  | .other kind name =>
    .ok none [unknownKindMsg (.other kind name) kind]

/-- The field loop of the struct branch: for each field in declaration
order, recurse on the field type; fields whose result is nil are skipped,
supported fields contribute the pair (first tag token, schema).  The struct
branch then folds these pairs into the properties map. -/
def collectProps : Fields → PResult (List (String × Schema))
  | .nil => .ok [] []
  | .cons _ tag ftype rest =>
    match getProperty ftype with
    | .panics => .panics
    | .ok none log1 =>
      match collectProps rest with
      | .panics => .panics
      | .ok ps log2 => .ok ps (log1 ++ log2)
    | .ok (some s) log1 =>
      match collectProps rest with
      | .panics => .panics
      | .ok ps log2 => .ok ((firstTagToken tag, s) :: ps) (log1 ++ log2)

end

/-! ## Parameters, operations, path items, documents

The slice of `go-openapi/spec` document types the walker populates. -/

/-- The fields of `spec.Parameter` the source sets: `Name`, `In`,
`Required`, the simple-schema `Type`, and the body `Schema`. -/
structure Parameter : Type where
  name : String
  inLoc : String
  required : Bool
  paramType : String
  schema : Option Schema

/-- Dependency `spec.PathParam(name)`: `in: path`, always required, of
simple type `string`. -/
def pathParam (name : String) : Parameter :=
  { name := name, inLoc := "path", required := true, paramType := "string", schema := none }

/-- Dependency `spec.BodyParam(name, schema)`: `in: body` with the given
schema. -/
def bodyParam (name : String) (schema : Schema) : Parameter :=
  { name := name, inLoc := "body", required := false, paramType := "", schema := some schema }

/-- Dependency `spec.Response`: the walker only sets its `Schema`. -/
structure SpecResponse : Type where
  schema : Option Schema

/-- Dependency `Operation.AddParam` on the parameter list: when a parameter
with the same `Name` and `In` already exists it is replaced in place,
otherwise the new parameter is appended. -/
def addParamList : List Parameter → Parameter → List Parameter
  | [], p => [p]
  | q :: rest, p =>
    if q.name = p.name ∧ q.inLoc = p.inLoc then p :: rest else q :: addParamList rest p

/-- Go map assignment on the `map[int]Response` held by
`Responses.StatusCodeResponses`. -/
def insertR : List (Nat × SpecResponse) → Nat → SpecResponse → List (Nat × SpecResponse)
  | [], k, v => [(k, v)]
  | (k', v') :: rest, k, v =>
    if k' = k then (k, v) :: rest else (k', v') :: insertR rest k v

/-- The fields of `spec.Operation` the source populates: the parameter list
and the status-code-to-response map. -/
structure Operation : Type where
  parameters : List Parameter
  responses : List (Nat × SpecResponse)

/-- Dependency `spec.NewOperation("")`: empty parameters and responses. -/
def newOperation : Operation := { parameters := [], responses := [] }

/-- Dependency `Operation.AddParam`. -/
def Operation.addParam (o : Operation) (p : Parameter) : Operation :=
  { o with parameters := addParamList o.parameters p }

/-- Dependency `Operation.RespondsWith(code, response)`. -/
def Operation.respondsWith (o : Operation) (code : Nat) (r : SpecResponse) : Operation :=
  { o with responses := insertR o.responses code r }

/-- The seven method slots of `spec.PathItem`. -/
structure PathItem : Type where
  get : Option Operation
  put : Option Operation
  post : Option Operation
  delete : Option Operation
  options : Option Operation
  head : Option Operation
  patch : Option Operation

/-- The zero value `spec.PathItem{}`. -/
def emptyPathItem : PathItem :=
  { get := none, put := none, post := none, delete := none,
    options := none, head := none, patch := none }

/-- The fields of `spec.Swagger` the source populates: the version tag, the
definitions table and the paths map. -/
structure Swagger : Type where
  swagger : String
  definitions : List (String × Schema)
  paths : List (String × PathItem)

/-- The document literal at the top of `initializeDoc`. -/
def emptyDoc : Swagger := { swagger := "2.0", definitions := [], paths := [] }

/-! ## Path parameter extraction

`pathParamPattern = regexp.MustCompile("{([^}]+)}")` and
`pathParamPattern.FindAllStringSubmatch(route, -1)`: all non-overlapping,
leftmost-first matches of `{([^}]+)}`; the walker uses capture group 1 (the
non-empty run of non-`}` characters between the braces).  `fppAux` scans the
characters once; the `Option` state is `some acc` while inside a candidate
`{...}` whose body so far is `acc` (reversed never needed: appended in
order).  A `}` with a non-empty body closes a match exactly as the regex
does; a `}` with an empty body corresponds to the regex failing at both
brace positions and resuming after them. -/

def fppAux : List Char → Option (List Char) → List String
  | [], _ => []
  | c :: rest, none =>
    if c = '{' then fppAux rest (some []) else fppAux rest none
  | c :: rest, some acc =>
    if c = '}' then
      if acc.isEmpty then fppAux rest none
      else ⟨acc⟩ :: fppAux rest none
    else fppAux rest (some (acc ++ [c]))

/-- Capture groups of `pathParamPattern.FindAllStringSubmatch(route, -1)`
in left-to-right order. -/
def findPathParams (route : String) : List String :=
  fppAux route.toList none

/-! ## Handler capabilities (handlers.go)

`initializeDoc` checks each route's handler against the two interfaces
`ghttp.PayloadTyper` (method `PayloadType() reflect.Type`) and
`ghttp.ResponseTyper` (method `ResponseType() reflect.Type`).  A `Handler`
records the outcome of those two type assertions: `none` means the
assertion fails, `some t` means it succeeds and the method returns `t`. -/

structure Handler : Type where
  payloadType : Option Typ
  responseType : Option Typ

/-- The three concrete handler types declared in `handlers.go`. -/
inductive HandlerType : Type where
  | jsonHandler
  | jsonPayloadHandler
  | jsonPayloadHandlerFunc
deriving DecidableEq

/-- The method set each type declares in `handlers.go`:
`JSONHandler[O]` has `ServeHTTP` (line 42) and `ResponseType` (line 53);
`JSONPayloadHandler[I, O]` has only `ServeHTTP` (line 70) — its
`handlerFunc` field is a named, non-embedded field, so no methods are
promoted from it; `JSONPayloadHandlerFunc[I, O]` has `PayloadType`
(line 89) and `ResponseType` (line 94) and no `ServeHTTP`. -/
def methodSet : HandlerType → List String
  | .jsonHandler => ["ServeHTTP", "ResponseType"]
  | .jsonPayloadHandler => ["ServeHTTP"]
  | .jsonPayloadHandlerFunc => ["PayloadType", "ResponseType"]

/-- A value of one of the `handlers.go` types, together with the type
arguments it was instantiated at (`inTyp` is `none` for `JSONHandler`,
which has no input type parameter). -/
structure GoHandlerValue : Type where
  htype : HandlerType
  inTyp : Option Typ
  outTyp : Typ

/-- Constructor `NewJSONHandler[O]`: returns a `JSONHandler[O]` value. -/
def newJSONHandler (O : Typ) : GoHandlerValue :=
  { htype := .jsonHandler, inTyp := none, outTyp := O }

/-- Constructor `NewJSONPayloadHandler[I, O]`: returns a
`JSONPayloadHandler[I, O]` struct value wrapping the callback. -/
def newJSONPayloadHandler (I O : Typ) : GoHandlerValue :=
  { htype := .jsonPayloadHandler, inTyp := some I, outTyp := O }

/-- The Go type assertion `handler.(ghttp.PayloadTyper)`: succeeds exactly
when the dynamic type's method set contains `PayloadType`, in which case
the method returns `reflect.TypeOf` of the `I` type argument. -/
def asPayloadTyper (v : GoHandlerValue) : Option Typ :=
  if "PayloadType" ∈ methodSet v.htype then v.inTyp else none

/-- The Go type assertion `handler.(ghttp.ResponseTyper)`: succeeds exactly
when the dynamic type's method set contains `ResponseType`, in which case
the method returns `reflect.TypeOf` of the `O` type argument. -/
def asResponseTyper (v : GoHandlerValue) : Option Typ :=
  if "ResponseType" ∈ methodSet v.htype then some v.outTyp else none

/-- The pair of capability-check outcomes `initializeDoc` observes for a
route registered with the given handler value. -/
def handlerCaps (v : GoHandlerValue) : Handler :=
  { payloadType := asPayloadTyper v, responseType := asResponseTyper v }

/-! ## The route walker (initializeDoc) -/

/-- One route yielded by `chi.Walk`: HTTP method, route pattern, and the
capability-check outcomes of its handler. -/
structure Route : Type where
  method : String
  pattern : String
  handler : Handler

/-- Embedding of `addDefinition` (chi adapter, lines 114-121): if the
type's name is absent from the definitions table, build its schema; a
non-nil schema is stored under the name, a nil one leaves the table
unchanged. -/
def addDefinition (defs : List (String × Schema)) (t : Typ) :
    PResult (List (String × Schema)) :=
  match lookupA defs (getName t) with
  | some _ => .ok defs []
  | none =>
    match getProperty t with
    | .panics => .panics
    | .ok none log => .ok defs log
    | .ok (some prop) log => .ok (insertA defs (getName t) prop) log

/-- Lines 55-62: the `PayloadTyper` branch of the walk callback — register
the payload type in the definitions table and add a body parameter
referencing `#/definitions/<name>`. -/
def payloadStep (defs : List (String × Schema)) (pTyper : Option Typ) (op : Operation) :
    PResult (Operation × List (String × Schema)) :=
  match pTyper with
  | none => .ok (op, defs) []
  | some pt =>
    (addDefinition defs pt).bind fun defs1 =>
      .ok (op.addParam
             (bodyParam (getName pt) (refProperty ("#/definitions/" ++ getName pt))),
           defs1) []

/-- Lines 64-72: the `ResponseTyper` branch of the walk callback. -/
def responseStep (defs : List (String × Schema)) (rTyper : Option Typ) (op : Operation) :
    PResult (Operation × List (String × Schema)) :=
  match rTyper with
  | none => .ok (op, defs) []
  | some rt =>
    (addDefinition defs rt).bind fun defs2 =>
      .ok (op.respondsWith 200 ⟨some (refProperty ("#/definitions/" ++ getName rt))⟩,
           defs2) []

/-- Lines 85-89: the path-parameter loop of the walk callback. -/
def pathParamsStep (route : String) (op : Operation) : Operation :=
  (findPathParams route).foldl (fun o n => o.addParam (pathParam n)) op

/-- The operation-building part of the walk callback (lines 53-89): start
from `spec.NewOperation("")`, run the `PayloadTyper` branch, the
`ResponseTyper` branch, then add one path parameter per `{name}` match in
the route pattern, in left-to-right order. -/
def routeOperation (defs : List (String × Schema)) (h : Handler) (route : String) :
    PResult (Operation × List (String × Schema)) :=
  (payloadStep defs h.payloadType newOperation).bind fun od =>
  (responseStep od.2 h.responseType od.1).bind fun od2 =>
  .ok (pathParamsStep route od2.1, od2.2) []

/-- The `switch method` statement (lines 92-107): assign the operation to
the slot matching one of the seven `http.Method*` constants; any other
method leaves the path item unchanged. -/
def setMethodOp (item : PathItem) (method : String) (op : Operation) : PathItem :=
  if method = "GET" then { item with get := some op }
  else if method = "PUT" then { item with put := some op }
  else if method = "POST" then { item with post := some op }
  else if method = "DELETE" then { item with delete := some op }
  else if method = "OPTIONS" then { item with options := some op }
  else if method = "HEAD" then { item with head := some op }
  else if method = "PATCH" then { item with patch := some op }
  else item

/-- Lines 50-52 of the walk callback: `if _, ok := doc.Paths.Paths[route];
!ok { doc...Paths[route] = spec.PathItem{} }`. -/
def ensureKey (paths : List (String × PathItem)) (pattern : String) :
    List (String × PathItem) :=
  match lookupA paths pattern with
  | some _ => paths
  | none => insertA paths pattern emptyPathItem

/-- The body of the `chi.Walk` callback for one route: ensure the pattern
has a (possibly empty) path item, build the operation, assign it to the
method slot, and write the path item back. -/
def walkOne (doc : Swagger) (r : Route) : PResult Swagger :=
  let paths0 := ensureKey doc.paths r.pattern
  (routeOperation doc.definitions r.handler r.pattern).bind fun od =>
    let item := (lookupA paths0 r.pattern).getD emptyPathItem
    .ok { doc with definitions := od.2,
                   paths := insertA paths0 r.pattern (setMethodOp item r.method od.1) } []

/-- The walk over a list of routes in the order `chi.Walk` yields them. -/
def walkAll : List Route → Swagger → PResult Swagger
  | [], doc => .ok doc []
  | r :: rs, doc => (walkOne doc r).bind fun doc' => walkAll rs doc'

/-- Embedding of `initializeDoc` (chi adapter, lines 39-112). -/
def initializeDoc (rs : List Route) : PResult Swagger :=
  walkAll rs emptyDoc

/-- The fixed method enumeration of the `switch` statement. -/
def recognizedMethods : List String :=
  ["GET", "PUT", "POST", "DELETE", "OPTIONS", "HEAD", "PATCH"]

/-! ## Generic JSON payload handler (handlers.go, ServeHTTP) -/

/-- A JSON-encodable response value (`interface{}` in the source); only the
string case is needed concretely, for the default invalid-payload body. -/
inductive JSONValue : Type where
  | str (s : String)
  | num (n : Int)
deriving DecidableEq

/-- Dependency `http.StatusBadGateway`. -/
def statusBadGateway : Nat := 502

/-- The package-level default `defaultInvalidJSONPayloadHandler`
(handlers.go lines 10-14): every decode error is mapped to the body
`"Invalid payload"` with status `http.StatusBadGateway`. -/
def defaultInvalidJSONPayloadHandler (_err : String) : JSONValue × Nat :=
  (JSONValue.str "Invalid payload", statusBadGateway)

/-- What `JSONPayloadHandler.ServeHTTP` writes to the response writer,
together with how many times it invoked the business callback. -/
structure ServeOutcome (V : Type) : Type where
  contentType : String
  status : Nat
  body : V
  callbackCalls : Nat

/-- Embedding of `JSONPayloadHandler[I, O].ServeHTTP` (handlers.go lines
70-87).  `decoded` is the result of `json.NewDecoder(r.Body).Decode(&payload)`;
on success the business callback is invoked with the decoded payload, on
failure the configured invalid-payload fallback is invoked with the error;
either way the content type, the chosen status and the encoded chosen value
are written.  `callbackCalls` instruments the number of callback
invocations (0 or 1). -/
def payloadServeHTTP {I V : Type} (decoded : Except String I)
    (invalidHandler : String → V × Nat) (handlerFunc : I → V × Nat) :
    ServeOutcome V :=
  match decoded with
  | .ok payload =>
    let r := handlerFunc payload
    { contentType := "application/json", status := r.2, body := r.1, callbackCalls := 1 }
  | .error err =>
    let r := invalidHandler err
    { contentType := "application/json", status := r.2, body := r.1, callbackCalls := 0 }

/-! ## Derived predicates and concrete example inputs used by the theorems -/

/-- The (key, schema) pair a struct field contributes when its recursive
schema result is supported, `none` when the result is nil (or the recursion
panics). -/
def fieldProp (f : String × String × Typ) : Option (String × Schema) :=
  match getProperty f.2.2 with
  | .ok (some s) _ => some (firstTagToken f.2.1, s)
  | _ => none

/-- Decidable "the schema computation does not panic". -/
def notPanics : PResult (Option Schema) → Bool
  | .panics => false
  | .ok _ _ => true

/-- The definitions table of a build result (empty when the build panics). -/
def docDefsOf : PResult Swagger → List (String × Schema)
  | .ok d _ => d.definitions
  | .panics => []

/-- Example struct `C { X bool json:x }`, used as a nested field type. -/
def cTyp : Typ := .structT "C" (.cons "X" "x" .bool .nil)

/-- Example struct `A { C1 C json:c }`. -/
def aTyp : Typ := .structT "A" (.cons "C1" "c" cTyp .nil)

/-- Example struct `B { C2 C json:c }`. -/
def bTyp : Typ := .structT "B" (.cons "C2" "c" cTyp .nil)

/-- Two routes whose payload types `A` and `B` both nest the struct `C`. -/
def nestedRoutes : List Route :=
  [⟨"POST", "/a", ⟨some aTyp, none⟩⟩, ⟨"POST", "/b", ⟨some bTyp, none⟩⟩]

/-- The inline object schema the converter produces for `C`. -/
def cInline : Schema := objectSchema [("x", booleanProperty)]

/-- Fields of a struct with two untagged fields of different supported
types: `S { A bool; B string }` (both `json` tags empty). -/
def collidingFields : Fields := .cons "A" "" .bool (.cons "B" "" .string .nil)

/-- The struct `S` built over `collidingFields`. -/
def collidingStruct : Typ := .structT "S" collidingFields

/-- Fields of the spec's example struct
`Widget { ID string json:id; Count int json:count }`. -/
def widgetFields : Fields := .cons "ID" "id" .string (.cons "Count" "count" .int .nil)

/-- A route with an HTTP method outside the switch enumeration. -/
def traceRoute : Route := ⟨"TRACE", "/t", ⟨none, none⟩⟩

/-- The document produced for `traceRoute` alone. -/
def traceDoc : Swagger :=
  { swagger := "2.0", definitions := [], paths := [("/t", emptyPathItem)] }

/-- The operation built for the route registering payload `A`. -/
def nestedOpA : Operation :=
  { parameters := [bodyParam "A" (refProperty "#/definitions/A")], responses := [] }

/-- The operation built for the route registering payload `B`. -/
def nestedOpB : Operation :=
  { parameters := [bodyParam "B" (refProperty "#/definitions/B")], responses := [] }

/-- The document produced for `nestedRoutes`. -/
def nestedDoc : Swagger :=
  { swagger := "2.0",
    definitions := [("A", objectSchema [("c", cInline)]), ("B", objectSchema [("c", cInline)])],
    paths := [("/a", { emptyPathItem with post := some nestedOpA }),
              ("/b", { emptyPathItem with post := some nestedOpB })] }

/-- A one-entry definitions table already holding the name `A`. -/
def aDefsEx : List (String × Schema) := [("A", objectSchema [("c", cInline)])]

/-- The operation produced by the payload step for payload type `C` over an
empty definitions table. -/
def cOpEx : Operation :=
  { parameters := [bodyParam "C" (refProperty "#/definitions/C")], responses := [] }

/-- The operation holding exactly the two path parameters of the pattern
`/users/(id)/posts/(postId)` (with braces in the actual pattern). -/
def usersOpEx : Operation :=
  { parameters := [pathParam "id", pathParam "postId"], responses := [] }

/-! ## Association-list lemmas -/

theorem lookupA_insertA {β : Type} (l : List (String × β)) (k p : String) (v : β) :
    lookupA (insertA l k v) p = if k = p then some v else lookupA l p := by
  induction l with
  | nil => simp [insertA, lookupA]
  | cons hd tl ih =>
    obtain ⟨k', v'⟩ := hd
    by_cases h1 : k' = k
    · subst h1
      by_cases h2 : k' = p <;> simp [insertA, lookupA, h2]
    · by_cases h2 : k' = p
      · subst h2
        have : k ≠ k' := fun h => h1 h.symm
        simp [insertA, lookupA, h1, this]
      · simp [insertA, lookupA, h1, h2, ih]

theorem lookupA_eq_none_iff {β : Type} (l : List (String × β)) (k : String) :
    lookupA l k = none ↔ k ∉ l.map Prod.fst := by
  induction l with
  | nil => simp [lookupA]
  | cons hd tl ih =>
    obtain ⟨k', v'⟩ := hd
    by_cases h : k' = k
    · subst h
      simp [lookupA]
    · have h' : ¬k = k' := fun hc => h hc.symm
      rw [lookupA, if_neg h, ih]
      simp [h']

theorem insertA_absent {β : Type} (l : List (String × β)) (k : String) (v : β)
    (h : lookupA l k = none) : insertA l k v = l ++ [(k, v)] := by
  induction l with
  | nil => simp [insertA]
  | cons hd tl ih =>
    obtain ⟨k', v'⟩ := hd
    by_cases h1 : k' = k
    · simp [lookupA, h1] at h
    · simp [lookupA, h1] at h
      simp [insertA, h1, ih h]

theorem insertA_present_self {β : Type} (l : List (String × β)) (k : String) (v : β)
    (h : lookupA l k = some v) : insertA l k v = l := by
  induction l with
  | nil => simp [lookupA] at h
  | cons hd tl ih =>
    obtain ⟨k', v'⟩ := hd
    by_cases h1 : k' = k
    · subst h1
      simp [lookupA] at h
      simp [insertA, h]
    · simp [lookupA, h1] at h
      simp [insertA, h1, ih h]

theorem lookupA_append {β : Type} (l1 l2 : List (String × β)) (k : String) :
    lookupA (l1 ++ l2) k = (lookupA l1 k).or (lookupA l2 k) := by
  induction l1 with
  | nil => simp [lookupA]
  | cons hd tl ih =>
    obtain ⟨k', v'⟩ := hd
    by_cases h : k' = k <;> simp [lookupA, h, ih]

theorem keys_insertA {β : Type} (l : List (String × β)) (k : String) (v : β) :
    (insertA l k v).map Prod.fst =
      if k ∈ l.map Prod.fst then l.map Prod.fst else l.map Prod.fst ++ [k] := by
  induction l with
  | nil => simp [insertA]
  | cons hd tl ih =>
    obtain ⟨k', v'⟩ := hd
    by_cases h1 : k' = k
    · subst h1
      simp [insertA]
    · have h1' : ¬k = k' := fun h => h1 h.symm
      by_cases h2 : k ∈ tl.map Prod.fst <;> simp [insertA, h1, h1', h2, ih]

theorem nodup_keys_insertA {β : Type} (l : List (String × β)) (k : String) (v : β)
    (h : (l.map Prod.fst).Nodup) : ((insertA l k v).map Prod.fst).Nodup := by
  rw [keys_insertA]
  by_cases hm : k ∈ l.map Prod.fst
  · simpa [hm] using h
  · simp only [hm, if_false]
    simp [List.nodup_append, h, hm]

/-! ## Definitions-table lemmas -/

theorem addDefinition_nodup (defs : List (String × Schema)) (t : Typ)
    (defs' : List (String × Schema)) (log : List String)
    (h : addDefinition defs t = .ok defs' log)
    (hn : (defs.map Prod.fst).Nodup) : (defs'.map Prod.fst).Nodup := by
  unfold addDefinition at h
  cases hc : lookupA defs (getName t) with
  | some s =>
    rw [hc] at h
    injection h with h1 _
    rw [← h1]; exact hn
  | none =>
    rw [hc] at h
    cases hg : getProperty t with
    | panics => rw [hg] at h; exact absurd h (by simp)
    | ok r log2 =>
      rw [hg] at h
      cases r with
      | none =>
        injection h with h1 _
        rw [← h1]; exact hn
      | some prop =>
        injection h with h1 _
        rw [← h1]
        exact nodup_keys_insertA defs (getName t) prop hn

theorem payloadStep_nodup (defs : List (String × Schema)) (pTyper : Option Typ)
    (op op1 : Operation) (defs1 : List (String × Schema)) (log : List String)
    (h : payloadStep defs pTyper op = .ok (op1, defs1) log)
    (hn : (defs.map Prod.fst).Nodup) : (defs1.map Prod.fst).Nodup := by
  cases pTyper with
  | none =>
    simp only [payloadStep] at h
    injection h with h1 _
    rw [show defs1 = defs from (congrArg Prod.snd h1).symm]
    exact hn
  | some pt =>
    simp only [payloadStep] at h
    cases hd : addDefinition defs pt with
    | panics => rw [hd] at h; exact absurd h (by simp [PResult.bind])
    | ok d l =>
      rw [hd] at h
      simp only [PResult.bind] at h
      injection h with h1 _
      rw [show defs1 = d from (congrArg Prod.snd h1).symm]
      exact addDefinition_nodup defs pt d l hd hn

theorem responseStep_nodup (defs : List (String × Schema)) (rTyper : Option Typ)
    (op op1 : Operation) (defs1 : List (String × Schema)) (log : List String)
    (h : responseStep defs rTyper op = .ok (op1, defs1) log)
    (hn : (defs.map Prod.fst).Nodup) : (defs1.map Prod.fst).Nodup := by
  cases rTyper with
  | none =>
    simp only [responseStep] at h
    injection h with h1 _
    rw [show defs1 = defs from (congrArg Prod.snd h1).symm]
    exact hn
  | some rt =>
    simp only [responseStep] at h
    cases hd : addDefinition defs rt with
    | panics => rw [hd] at h; exact absurd h (by simp [PResult.bind])
    | ok d l =>
      rw [hd] at h
      simp only [PResult.bind] at h
      injection h with h1 _
      rw [show defs1 = d from (congrArg Prod.snd h1).symm]
      exact addDefinition_nodup defs rt d l hd hn

theorem routeOperation_nodup (defs : List (String × Schema)) (h : Handler)
    (route : String) (op : Operation) (defs' : List (String × Schema)) (log : List String)
    (heq : routeOperation defs h route = .ok (op, defs') log)
    (hn : (defs.map Prod.fst).Nodup) : (defs'.map Prod.fst).Nodup := by
  unfold routeOperation at heq
  cases hp : payloadStep defs h.payloadType newOperation with
  | panics => rw [hp] at heq; exact absurd heq (by simp [PResult.bind])
  | ok od l1 =>
    rw [hp] at heq
    simp only [PResult.bind] at heq
    cases hr : responseStep od.2 h.responseType od.1 with
    | panics => rw [hr] at heq; exact absurd heq (by simp)
    | ok od2 l2 =>
      rw [hr] at heq
      injection heq with h1 _
      rw [show defs' = od2.2 from (congrArg Prod.snd h1).symm]
      exact responseStep_nodup od.2 h.responseType od.1 od2.1 od2.2 l2
        (by rw [hr]) (payloadStep_nodup defs h.payloadType newOperation od.1 od.2 l1 (by rw [hp]) hn)

theorem walkOne_nodup (doc : Swagger) (r : Route) (doc' : Swagger) (log : List String)
    (h : walkOne doc r = .ok doc' log)
    (hn : (doc.definitions.map Prod.fst).Nodup) : (doc'.definitions.map Prod.fst).Nodup := by
  unfold walkOne at h
  cases hro : routeOperation doc.definitions r.handler r.pattern with
  | panics => rw [hro] at h; exact absurd h (by simp [PResult.bind])
  | ok od l1 =>
    rw [hro] at h
    simp only [PResult.bind] at h
    injection h with h1 _
    rw [show doc'.definitions = od.2 from by rw [← h1]]
    exact routeOperation_nodup doc.definitions r.handler r.pattern od.1 od.2 l1 (by rw [hro]) hn

theorem walkAll_nodup : ∀ (rs : List Route) (doc doc' : Swagger) (log : List String),
    walkAll rs doc = .ok doc' log →
    (doc.definitions.map Prod.fst).Nodup → (doc'.definitions.map Prod.fst).Nodup
  | [], doc, doc', log, h, hn => by
    simp only [walkAll] at h
    injection h with h1 _
    rw [← h1]; exact hn
  | r :: rs, doc, doc', log, h, hn => by
    simp only [walkAll] at h
    cases hw : walkOne doc r with
    | panics => rw [hw] at h; exact absurd h (by simp [PResult.bind])
    | ok d1 l1 =>
      rw [hw] at h
      simp only [PResult.bind] at h
      cases ha : walkAll rs d1 with
      | panics => rw [ha] at h; exact absurd h (by simp)
      | ok d2 l2 =>
        rw [ha] at h
        injection h with h1 _
        rw [← h1]
        exact walkAll_nodup rs d1 d2 l2 ha (walkOne_nodup doc r d1 l1 hw hn)

/-! ## Path-item map lemmas -/

theorem lookupA_ensureKey_self (paths : List (String × PathItem)) (pattern : String) :
    lookupA (ensureKey paths pattern) pattern =
      some ((lookupA paths pattern).getD emptyPathItem) := by
  unfold ensureKey
  cases hc : lookupA paths pattern with
  | some v => simp [hc]
  | none => simp [lookupA_insertA, hc]

theorem lookupA_ensureKey_ne (paths : List (String × PathItem)) (pattern p : String)
    (h : p ≠ pattern) :
    lookupA (ensureKey paths pattern) p = lookupA paths p := by
  unfold ensureKey
  cases hc : lookupA paths pattern with
  | some v => rfl
  | none =>
    rw [lookupA_insertA, if_neg (fun hc : pattern = p => h hc.symm)]

theorem setMethodOp_unrecognized (item : PathItem) (method : String) (op : Operation)
    (h : method ∉ recognizedMethods) : setMethodOp item method op = item := by
  simp only [recognizedMethods, List.mem_cons, List.not_mem_nil, or_false, not_or] at h
  obtain ⟨h1, h2, h3, h4, h5, h6, h7⟩ := h
  simp [setMethodOp, h1, h2, h3, h4, h5, h6, h7]

/-! ## Parameter-list lemmas -/

theorem addParamList_append (ps : List Parameter) (p : Parameter)
    (h : ∀ q ∈ ps, ¬(q.name = p.name ∧ q.inLoc = p.inLoc)) :
    addParamList ps p = ps ++ [p] := by
  induction ps with
  | nil => rfl
  | cons q rest ih =>
    rw [addParamList, if_neg (h q (by simp))]
    rw [ih (fun q' hq' => h q' (by simp [hq']))]
    rfl

theorem mem_addParamList_of_inLoc_ne (ps : List Parameter) (p q : Parameter)
    (hq : q ∈ ps) (hne : q.inLoc ≠ p.inLoc) : q ∈ addParamList ps p := by
  induction ps with
  | nil => simp at hq
  | cons q' rest ih =>
    rw [addParamList]
    by_cases hm : q'.name = p.name ∧ q'.inLoc = p.inLoc
    · rw [if_pos hm]
      rcases List.mem_cons.mp hq with h | h
      · exact absurd (h ▸ hm.2) hne
      · exact List.mem_cons_of_mem _ h
    · rw [if_neg hm]
      rcases List.mem_cons.mp hq with h | h
      · exact h ▸ List.mem_cons_self _ _
      · exact List.mem_cons_of_mem _ (ih h)

theorem foldl_addParam_path : ∀ (ns : List String) (op : Operation),
    ns.Nodup →
    (∀ q ∈ op.parameters, q.inLoc = "path" → q.name ∉ ns) →
    (ns.foldl (fun o n => o.addParam (pathParam n)) op).parameters.filter
        (fun p => p.inLoc == "path")
      = op.parameters.filter (fun p => p.inLoc == "path") ++ ns.map pathParam
  | [], op, _, _ => by simp
  | n :: ns, op, hnd, hdis => by
    rw [List.foldl_cons]
    have hadd : (op.addParam (pathParam n)).parameters = op.parameters ++ [pathParam n] := by
      show addParamList op.parameters (pathParam n) = _
      refine addParamList_append _ _ (fun q hq hc => ?_)
      have hpath : q.inLoc = "path" := by
        have := hc.2; simpa [pathParam] using this
      have := hdis q hq hpath
      simp only [List.mem_cons, not_or] at this
      exact this.1 (by simpa [pathParam] using hc.1)
    have hop : (op.addParam (pathParam n)) =
        { parameters := op.parameters ++ [pathParam n],
          responses := op.responses } := by
      cases op; simp only [Operation.addParam] at hadd ⊢; simp [hadd]
    rw [hop]
    rw [foldl_addParam_path ns _ hnd.of_cons ?hdis2]
    case hdis2 =>
      intro q hq hpath
      rcases List.mem_append.mp hq with h | h
      · have := hdis q h hpath
        simp only [List.mem_cons, not_or] at this
        exact this.2
      · have : q = pathParam n := by simpa using h
        subst this
        exact (List.nodup_cons.mp hnd).1
    simp [List.filter_append, pathParam]

/-! ## Struct-schema lemmas -/

theorem collectProps_eq : ∀ (fs : Fields),
    (∀ f ∈ fs.toList, notPanics (getProperty f.2.2) = true) →
    ∃ log, collectProps fs = .ok (fs.toList.filterMap fieldProp) log
  | .nil, _ => ⟨[], rfl⟩
  | .cons n tag ftype rest, h => by
    have hft : notPanics (getProperty ftype) = true := h (n, tag, ftype) (by simp [Fields.toList])
    have hrest : ∀ f ∈ rest.toList, notPanics (getProperty f.2.2) = true := by
      intro f hf
      exact h f (by simp [Fields.toList, hf])
    obtain ⟨log2, hcp⟩ := collectProps_eq rest hrest
    cases hg : getProperty ftype with
    | panics => rw [hg] at hft; simp [notPanics] at hft
    | ok r log1 =>
      cases r with
      | none =>
        refine ⟨log1 ++ log2, ?_⟩
        simp only [collectProps, hg, hcp]
        simp [Fields.toList, fieldProp, hg]
      | some s =>
        refine ⟨log1 ++ log2, ?_⟩
        simp only [collectProps, hg, hcp]
        simp [Fields.toList, fieldProp, hg]

theorem foldl_insertA_eq_append {β : Type} : ∀ (ps acc : List (String × β)),
    (ps.map Prod.fst).Nodup →
    (∀ k ∈ ps.map Prod.fst, lookupA acc k = none) →
    ps.foldl (fun a kv => insertA a kv.1 kv.2) acc = acc ++ ps
  | [], acc, _, _ => by simp
  | (k, v) :: ps, acc, hnd, habs => by
    rw [List.foldl_cons]
    have h1 : lookupA acc k = none := habs k (by simp)
    have hnd' : k ∉ ps.map Prod.fst ∧ (ps.map Prod.fst).Nodup := by
      rw [List.map_cons, List.nodup_cons] at hnd; exact hnd
    rw [insertA_absent acc k v h1]
    rw [foldl_insertA_eq_append ps (acc ++ [(k, v)]) hnd'.2 ?habs2]
    · simp
    case habs2 =>
      intro k' hk'
      rw [lookupA_append]
      have hkk' : ¬k = k' := fun hc => hnd'.1 (hc ▸ hk')
      rw [habs k' (by simp [hk'])]
      simp [lookupA, hkk']

/-! ## Walk-step structure lemmas -/

theorem payloadStep_parameters (defs : List (String × Schema)) (pTyper : Option Typ)
    (op1 : Operation) (defs1 : List (String × Schema)) (log : List String)
    (h : payloadStep defs pTyper newOperation = .ok (op1, defs1) log) :
    op1.parameters = [] ∨
      ∃ pt, pTyper = some pt ∧
        op1.parameters =
          [bodyParam (getName pt) (refProperty ("#/definitions/" ++ getName pt))] := by
  cases pTyper with
  | none =>
    simp only [payloadStep] at h
    injection h with h1 _
    exact Or.inl (by rw [show op1 = newOperation from (congrArg Prod.fst h1).symm]; rfl)
  | some pt =>
    simp only [payloadStep] at h
    cases hd : addDefinition defs pt with
    | panics => rw [hd] at h; exact absurd h (by simp [PResult.bind])
    | ok d l =>
      rw [hd] at h
      simp only [PResult.bind] at h
      injection h with h1 _
      refine Or.inr ⟨pt, rfl, ?_⟩
      rw [show op1 = newOperation.addParam
            (bodyParam (getName pt) (refProperty ("#/definitions/" ++ getName pt)))
          from (congrArg Prod.fst h1).symm]
      rfl

theorem responseStep_parameters (defs : List (String × Schema)) (rTyper : Option Typ)
    (op op1 : Operation) (defs1 : List (String × Schema)) (log : List String)
    (h : responseStep defs rTyper op = .ok (op1, defs1) log) :
    op1.parameters = op.parameters := by
  cases rTyper with
  | none =>
    simp only [responseStep] at h
    injection h with h1 _
    rw [show op1 = op from (congrArg Prod.fst h1).symm]
  | some rt =>
    simp only [responseStep] at h
    cases hd : addDefinition defs rt with
    | panics => rw [hd] at h; exact absurd h (by simp [PResult.bind])
    | ok d l =>
      rw [hd] at h
      simp only [PResult.bind] at h
      injection h with h1 _
      rw [show op1 = op.respondsWith 200
            ⟨some (refProperty ("#/definitions/" ++ getName rt))⟩
          from (congrArg Prod.fst h1).symm]
      rfl

/-! ## Path-key presence lemmas -/

theorem walkOne_preserves_key (doc : Swagger) (r : Route) (doc' : Swagger)
    (log : List String) (p : String) (h : walkOne doc r = .ok doc' log)
    (hp : (lookupA doc.paths p).isSome = true) :
    (lookupA doc'.paths p).isSome = true := by
  unfold walkOne at h
  cases hro : routeOperation doc.definitions r.handler r.pattern with
  | panics => rw [hro] at h; exact absurd h (by simp [PResult.bind])
  | ok od l1 =>
    rw [hro] at h
    simp only [PResult.bind] at h
    injection h with h1 _
    rw [show doc'.paths = insertA (ensureKey doc.paths r.pattern) r.pattern
          (setMethodOp ((lookupA (ensureKey doc.paths r.pattern) r.pattern).getD emptyPathItem)
            r.method od.1)
        from by rw [← h1]]
    rw [lookupA_insertA]
    by_cases hc : r.pattern = p
    · simp [hc]
    · rw [if_neg hc, lookupA_ensureKey_ne _ _ _ (fun hc2 => hc hc2.symm)]
      exact hp

theorem walkOne_self_key (doc : Swagger) (r : Route) (doc' : Swagger)
    (log : List String) (h : walkOne doc r = .ok doc' log) :
    (lookupA doc'.paths r.pattern).isSome = true := by
  unfold walkOne at h
  cases hro : routeOperation doc.definitions r.handler r.pattern with
  | panics => rw [hro] at h; exact absurd h (by simp [PResult.bind])
  | ok od l1 =>
    rw [hro] at h
    simp only [PResult.bind] at h
    injection h with h1 _
    rw [show doc'.paths = insertA (ensureKey doc.paths r.pattern) r.pattern
          (setMethodOp ((lookupA (ensureKey doc.paths r.pattern) r.pattern).getD emptyPathItem)
            r.method od.1)
        from by rw [← h1]]
    rw [lookupA_insertA]
    simp

theorem walkAll_preserves_key : ∀ (rs : List Route) (doc doc' : Swagger)
    (log : List String) (p : String), walkAll rs doc = .ok doc' log →
    (lookupA doc.paths p).isSome = true → (lookupA doc'.paths p).isSome = true
  | [], doc, doc', log, p, h, hp => by
    simp only [walkAll] at h
    injection h with h1 _
    rw [← h1]; exact hp
  | r :: rs, doc, doc', log, p, h, hp => by
    simp only [walkAll] at h
    cases hw : walkOne doc r with
    | panics => rw [hw] at h; exact absurd h (by simp [PResult.bind])
    | ok d1 l1 =>
      rw [hw] at h
      simp only [PResult.bind] at h
      cases ha : walkAll rs d1 with
      | panics => rw [ha] at h; exact absurd h (by simp)
      | ok d2 l2 =>
        rw [ha] at h
        injection h with h1 _
        rw [← h1]
        exact walkAll_preserves_key rs d1 d2 l2 p ha (walkOne_preserves_key doc r d1 l1 p hw hp)

theorem walkAll_member_key : ∀ (rs : List Route) (doc doc' : Swagger)
    (log : List String), walkAll rs doc = .ok doc' log →
    ∀ r ∈ rs, (lookupA doc'.paths r.pattern).isSome = true
  | [], _, _, _, _, r, hr => by simp at hr
  | r0 :: rs, doc, doc', log, h, r, hr => by
    simp only [walkAll] at h
    cases hw : walkOne doc r0 with
    | panics => rw [hw] at h; exact absurd h (by simp [PResult.bind])
    | ok d1 l1 =>
      rw [hw] at h
      simp only [PResult.bind] at h
      cases ha : walkAll rs d1 with
      | panics => rw [ha] at h; exact absurd h (by simp)
      | ok d2 l2 =>
        rw [ha] at h
        injection h with h1 _
        rcases List.mem_cons.mp hr with hr0 | hrs
        · subst hr0
          rw [← h1]
          exact walkAll_preserves_key rs d1 d2 l2 r.pattern ha
            (walkOne_self_key doc r d1 l1 hw)
        · rw [← h1]
          exact walkAll_member_key rs d1 d2 l2 ha r hrs

/-! ## Claim theorems -/

/-- C1: the claim says `getProperty` never raises and that every
unsupported kind — including a pointer whose pointee is unsupported — logs
a diagnostic and returns nil.  The code does so for a bare unsupported kind
(first conjunct: an anonymous map type logs the diagnostic and yields no
schema), but for a pointer whose pointee is unsupported it executes
`property.Nullable = true` on the nil result of the recursive call and
panics with a nil-pointer dereference (second conjunct), contradicting the
contract stated in the spec. -/
theorem getProperty_unsupported_log_and_pointer_panics :
    getProperty (.other "map" "")
      = .ok none ["Unknown kind for swagger property:  map\n"] ∧
    getProperty (.pointer (.other "map" "")) = .panics :=
  ⟨rfl, rfl⟩

/-- C2: the claim says a value built by `NewJSONPayloadHandler[I, O]`
implements both `PayloadTyper` and `ResponseTyper`, so the walker attaches
a body parameter and a success response.  In the code, `PayloadType` and
`ResponseType` are declared with receiver `JSONPayloadHandlerFunc[I, O]`
(the bare function type), not the `JSONPayloadHandler[I, O]` struct the
constructor returns, and the struct's `handlerFunc` field is named rather
than embedded, so neither method is promoted: both type assertions fail
(first two conjuncts; the function type itself would satisfy them, third
and fourth conjuncts), and the operation built for such a route has no
parameters and no responses (last conjunct). -/
theorem jsonPayloadHandler_capability_checks_fail :
    asPayloadTyper (newJSONPayloadHandler Typ.bool Typ.int) = none ∧
    asResponseTyper (newJSONPayloadHandler Typ.bool Typ.int) = none ∧
    asPayloadTyper ⟨.jsonPayloadHandlerFunc, some Typ.bool, Typ.int⟩ = some Typ.bool ∧
    asResponseTyper ⟨.jsonPayloadHandlerFunc, some Typ.bool, Typ.int⟩ = some Typ.int ∧
    routeOperation [] (handlerCaps (newJSONPayloadHandler Typ.bool Typ.int)) "/w"
      = .ok (newOperation, []) [] :=
  ⟨rfl, rfl, rfl, rfl, rfl⟩

/-- C7: for every request to an Input+Output JSON handler, a body that
fails to decode makes `ServeHTTP` write the configured fallback's value and
status without invoking the business callback (the outcome is independent
of the callback and records zero invocations), and a body that decodes
makes it invoke the callback once with the decoded value and write the
returned value and status. -/
theorem payload_decode_dispatch :
    ∀ (I V : Type) (invalidHandler : String → V × Nat) (callback : I → V × Nat)
      (e : String) (payload : I),
      (payloadServeHTTP (Except.error e) invalidHandler callback
        = { contentType := "application/json", status := (invalidHandler e).2,
            body := (invalidHandler e).1, callbackCalls := 0 }) ∧
      (∀ callback2 : I → V × Nat,
        payloadServeHTTP (Except.error e) invalidHandler callback
          = payloadServeHTTP (Except.error e) invalidHandler callback2) ∧
      (payloadServeHTTP (Except.ok payload) invalidHandler callback
        = { contentType := "application/json", status := (callback payload).2,
            body := (callback payload).1, callbackCalls := 1 }) :=
  fun _ _ _ _ _ _ => ⟨rfl, fun _ => rfl, rfl⟩

/-- C9: the built-in default invalid-JSON-payload fallback maps every
decode error to the body string `Invalid payload` with status
`http.StatusBadGateway` = 502, which is a 5xx server-error status, not a
4xx client-error status; a decode failure served with this default writes
exactly that body and status and never calls the business callback. -/
theorem default_invalid_payload_handler_spec :
    ∀ (err : String) (callback : JSONValue → JSONValue × Nat),
      defaultInvalidJSONPayloadHandler err = (JSONValue.str "Invalid payload", 502) ∧
      (defaultInvalidJSONPayloadHandler err).2 = statusBadGateway ∧
      ¬(400 ≤ (defaultInvalidJSONPayloadHandler err).2 ∧
        (defaultInvalidJSONPayloadHandler err).2 < 500) ∧
      payloadServeHTTP (Except.error err) defaultInvalidJSONPayloadHandler callback
        = { contentType := "application/json", status := 502,
            body := JSONValue.str "Invalid payload", callbackCalls := 0 } :=
  fun _ _ => ⟨rfl, rfl, (by decide : ¬(400 ≤ (502 : Nat) ∧ (502 : Nat) < 500)), rfl⟩

/-- C8: a route whose HTTP method is outside the fixed enumeration
GET/PUT/POST/DELETE/OPTIONS/HEAD/PATCH still has its operation built (first
conjunct: the operation exists and the walk's definitions and log are
exactly those of the operation build — no extra diagnostic), but the
operation is never attached: the stored path item at the route's pattern is
exactly the pre-existing one, or the empty item created for the pattern,
and every other pattern's entry is untouched (second conjunct). -/
theorem unrecognized_method_not_attached (doc : Swagger) (r : Route) (doc' : Swagger)
    (log : List String) (hm : r.method ∉ recognizedMethods)
    (h : walkOne doc r = .ok doc' log) :
    (∃ op, routeOperation doc.definitions r.handler r.pattern = .ok (op, doc'.definitions) log) ∧
    (∀ p, lookupA doc'.paths p =
      if p = r.pattern then some ((lookupA doc.paths p).getD emptyPathItem)
      else lookupA doc.paths p) := by
  unfold walkOne at h
  cases hro : routeOperation doc.definitions r.handler r.pattern with
  | panics => rw [hro] at h; exact absurd h (by simp [PResult.bind])
  | ok od l1 =>
    rw [hro] at h
    simp only [PResult.bind] at h
    injection h with h1 h2
    constructor
    · refine ⟨od.1, ?_⟩
      have hdefs : doc'.definitions = od.2 := by rw [← h1]
      rw [hdefs, ← h2, List.append_nil]
    · intro p
      have hpaths : doc'.paths = insertA (ensureKey doc.paths r.pattern) r.pattern
          (setMethodOp ((lookupA (ensureKey doc.paths r.pattern) r.pattern).getD emptyPathItem)
            r.method od.1) := by rw [← h1]
      have hsome := lookupA_ensureKey_self doc.paths r.pattern
      rw [hpaths, setMethodOp_unrecognized _ _ _ hm,
        show ((lookupA (ensureKey doc.paths r.pattern) r.pattern).getD emptyPathItem)
            = (lookupA doc.paths r.pattern).getD emptyPathItem from by rw [hsome]; rfl,
        insertA_present_self _ _ _ (by rw [hsome])]
      by_cases hc : p = r.pattern
      · rw [if_pos hc, hc, hsome]
      · rw [if_neg hc, lookupA_ensureKey_ne _ _ _ hc]

/-- C8 witness: the concrete route `TRACE /t` walked over the empty
document leaves its path item empty. -/
theorem unrecognized_method_not_attached_witness :
    lookupA traceDoc.paths "/t" =
      (if "/t" = traceRoute.pattern
       then some ((lookupA emptyDoc.paths "/t").getD emptyPathItem)
       else lookupA emptyDoc.paths "/t") :=
  (unrecognized_method_not_attached emptyDoc traceRoute traceDoc [] (by decide) rfl).2 "/t"

/-- C10: every walked route's pattern becomes a key of the paths map (first
conjunct), and a router whose only route uses an unrecognized method still
yields a document whose paths map holds exactly that pattern, mapped to a
path item with no operations (second conjunct). -/
theorem route_pattern_always_keyed :
    (∀ (rs : List Route) (doc : Swagger) (log : List String),
       initializeDoc rs = .ok doc log →
       ∀ r ∈ rs, (lookupA doc.paths r.pattern).isSome = true) ∧
    (∀ (r : Route) (doc : Swagger) (log : List String),
       r.method ∉ recognizedMethods → initializeDoc [r] = .ok doc log →
       doc.paths = [(r.pattern, emptyPathItem)]) := by
  constructor
  · intro rs doc log h r hr
    exact walkAll_member_key rs emptyDoc doc log h r hr
  · intro r doc log hm h
    unfold initializeDoc walkAll at h
    cases hw : walkOne emptyDoc r with
    | panics => rw [hw] at h; exact absurd h (by simp [PResult.bind])
    | ok d1 l1 =>
      rw [hw] at h
      simp only [PResult.bind, walkAll] at h
      injection h with h1 _
      unfold walkOne at hw
      cases hro : routeOperation emptyDoc.definitions r.handler r.pattern with
      | panics => rw [hro] at hw; exact absurd hw (by simp [PResult.bind])
      | ok od l2 =>
        rw [hro] at hw
        simp only [PResult.bind] at hw
        injection hw with hw1 _
        rw [← h1]
        have hek : ensureKey emptyDoc.paths r.pattern = [(r.pattern, emptyPathItem)] := by
          simp [ensureKey, emptyDoc, lookupA, insertA]
        rw [show d1.paths = insertA (ensureKey emptyDoc.paths r.pattern) r.pattern
              (setMethodOp ((lookupA (ensureKey emptyDoc.paths r.pattern) r.pattern).getD
                emptyPathItem) r.method od.1) from by rw [← hw1]]
        rw [hek,
          show lookupA [(r.pattern, emptyPathItem)] r.pattern = some emptyPathItem from by
            simp [lookupA],
          show (some emptyPathItem).getD emptyPathItem = emptyPathItem from rfl,
          setMethodOp_unrecognized _ _ _ hm]
        simp [insertA]

/-- C10 witness: the single unrecognized-method route `TRACE /t` produces a
document keyed by `/t` whose path item is empty. -/
theorem route_pattern_always_keyed_witness :
    (lookupA traceDoc.paths traceRoute.pattern).isSome = true ∧
    traceDoc.paths = [(traceRoute.pattern, emptyPathItem)] :=
  ⟨route_pattern_always_keyed.1 [traceRoute] traceDoc [] rfl traceRoute (by simp),
   route_pattern_always_keyed.2 traceRoute traceDoc [] (by decide) rfl⟩

/-- C3 counterexample: the claim says a named type referenced repeatedly,
including as a nested struct field of several registered payload types, is
not re-expanded inline but resolved through the definitions table.  After
building the document over two routes whose payload structs `A` and `B`
both have a field of struct type `C`, the table has no entry for `C`
(second conjunct) and both the `A` and `B` entries embed `C`'s full object
schema inline under their `c` property (first conjunct): `cInline` is a
plain object node with a nonempty properties map and an empty `$ref`
(remaining conjuncts), produced twice, so `C` is re-expanded inline rather
than resolved through the table. -/
theorem nested_struct_reexpanded_inline :
    docDefsOf (initializeDoc nestedRoutes)
      = [("A", objectSchema [("c", cInline)]), ("B", objectSchema [("c", cInline)])] ∧
    lookupA (docDefsOf (initializeDoc nestedRoutes)) "C" = none ∧
    (objectSchema [("c", cInline)]).properties = [("c", cInline)] ∧
    cInline.ref = "" ∧ cInline.properties = [("x", booleanProperty)] :=
  ⟨rfl, rfl, rfl, rfl, rfl⟩

/-- C3 amended: after building a document over any set of routes the
definitions table holds at most one entry per distinct type name (first
conjunct: its keys are nodup); a type whose name is already present is not
rebuilt — `addDefinition` returns the table unchanged with no diagnostics
(second conjunct); and a registered payload type is referenced from its
operation through a `#/definitions/` reference rather than expanded inline
(third conjunct).  Nested struct fields, by contrast, are expanded inline
(see the counterexample). -/
theorem definitions_table_dedup :
    (∀ (rs : List Route) (doc : Swagger) (log : List String),
       initializeDoc rs = .ok doc log → (doc.definitions.map Prod.fst).Nodup) ∧
    (∀ (defs : List (String × Schema)) (t : Typ) (defs' : List (String × Schema))
       (log : List String),
       lookupA defs (getName t) ≠ none →
       addDefinition defs t = .ok defs' log → defs' = defs ∧ log = []) ∧
    (∀ (defs : List (String × Schema)) (pt : Typ) (op1 : Operation)
       (defs1 : List (String × Schema)) (log : List String),
       payloadStep defs (some pt) newOperation = .ok (op1, defs1) log →
       bodyParam (getName pt) (refProperty ("#/definitions/" ++ getName pt))
         ∈ op1.parameters) := by
  refine ⟨?_, ?_, ?_⟩
  · intro rs doc log h
    exact walkAll_nodup rs emptyDoc doc log h (by simp [emptyDoc])
  · intro defs t defs' log hne h
    unfold addDefinition at h
    cases hc : lookupA defs (getName t) with
    | none => exact absurd hc hne
    | some s =>
      rw [hc] at h
      injection h with h1 h2
      exact ⟨h1.symm, h2.symm⟩
  · intro defs pt op1 defs1 log h
    simp only [payloadStep] at h
    cases hd : addDefinition defs pt with
    | panics => rw [hd] at h; exact absurd h (by simp [PResult.bind])
    | ok d l =>
      rw [hd] at h
      simp only [PResult.bind] at h
      injection h with h1 _
      rw [show op1 = newOperation.addParam
            (bodyParam (getName pt) (refProperty ("#/definitions/" ++ getName pt)))
          from (congrArg Prod.fst h1).symm]
      simp [Operation.addParam, addParamList, newOperation]

/-- C3 witness: the two nested routes build a table with nodup keys; a
table already holding `A` is returned unchanged when `A` is registered
again; and the payload step for struct `C` over an empty table attaches a
body parameter referencing its definition. -/
theorem definitions_table_dedup_witness :
    (nestedDoc.definitions.map Prod.fst).Nodup ∧
    (aDefsEx = aDefsEx ∧ ([] : List String) = []) ∧
    bodyParam (getName cTyp) (refProperty ("#/definitions/" ++ getName cTyp))
      ∈ cOpEx.parameters :=
  ⟨definitions_table_dedup.1 nestedRoutes nestedDoc [] rfl,
   definitions_table_dedup.2.1 aDefsEx aTyp aDefsEx []
     (fun hc => Option.noConfusion hc) rfl,
   definitions_table_dedup.2.2 [] cTyp cOpEx [("C", cInline)] [] rfl⟩

/-- C4 counterexample: the claim says a struct's object schema has exactly
one property per supported field, keyed by the first comma token of its
json tag.  For the struct `S` with two untagged supported fields `A bool`
and `B string`, both fields are supported (second conjunct lists both
contributions) yet the produced schema holds a single property — the two
empty-string keys collide in the properties map and the later field
overwrites the earlier one (first conjunct), so the property count differs
from the supported-field count (third conjunct). -/
theorem untagged_collision_drops_field :
    getProperty collidingStruct = .ok (some (objectSchema [("", stringProperty)])) [] ∧
    collidingFields.toList.filterMap fieldProp
      = [("", booleanProperty), ("", stringProperty)] ∧
    (objectSchema [("", stringProperty)]).properties.length ≠ collidingFields.toList.length :=
  ⟨rfl, rfl, by decide⟩

/-- C4 amended: for every struct type none of whose fields panics the
schema builder and whose supported fields' tag-derived keys are pairwise
distinct, the produced object schema has exactly one property per field
whose recursive schema result is supported, keyed by the first
comma-separated token of the field's json tag (empty tag giving the
empty-string key), in declaration order; fields whose result is nil are
omitted.  When keys collide, the colliding fields collapse into a single
property (see the counterexample). -/
theorem struct_schema_properties (name : String) (fs : Fields)
    (hnp : ∀ f ∈ fs.toList, notPanics (getProperty f.2.2) = true)
    (hnd : ((fs.toList.filterMap fieldProp).map Prod.fst).Nodup) :
    ∃ log, getProperty (.structT name fs)
      = .ok (some (objectSchema (fs.toList.filterMap fieldProp))) log := by
  obtain ⟨log, hcp⟩ := collectProps_eq fs hnp
  refine ⟨log, ?_⟩
  have hdef : getProperty (.structT name fs)
      = match collectProps fs with
        | .panics => .panics
        | .ok ps log =>
          .ok (some (objectSchema (ps.foldl (fun acc kv => insertA acc kv.1 kv.2) []))) log :=
    rfl
  rw [hdef, hcp]
  show PResult.ok (some (objectSchema
      ((fs.toList.filterMap fieldProp).foldl (fun acc kv => insertA acc kv.1 kv.2) []))) log = _
  rw [foldl_insertA_eq_append (fs.toList.filterMap fieldProp) [] hnd (fun k _ => rfl)]
  rw [List.nil_append]

/-- C4 witness: the spec's example struct Widget with fields `ID string`
(tag `id`) and `Count int` (tag `count`) yields an object schema with
exactly the two properties `id` and `count`, in declaration order. -/
theorem struct_schema_properties_witness :
    ∃ log, getProperty (.structT "Widget" widgetFields)
      = .ok (some (objectSchema (widgetFields.toList.filterMap fieldProp))) log :=
  struct_schema_properties "Widget" widgetFields (by decide) (by decide)

/-- C5 counterexample: the claim says the assembled operation contains
exactly one path Parameter per placeholder, in left-to-right order.  The
pattern with the duplicate placeholder `id` has two placeholder matches
(first conjunct) but the built operation has a single parameter —
`Operation.AddParam` replaces an existing parameter with the same name and
location instead of appending (second conjunct) — so the parameter count
differs from the placeholder count (third conjunct). -/
theorem duplicate_placeholder_collapses :
    findPathParams "/a/{id}/b/{id}" = ["id", "id"] ∧
    routeOperation [] ⟨none, none⟩ "/a/{id}/b/{id}"
      = .ok (⟨[pathParam "id"], []⟩, []) [] ∧
    ([pathParam "id"].length ≠ (findPathParams "/a/{id}/b/{id}").length) :=
  ⟨rfl, rfl, by decide⟩

/-- C5 amended: for every route pattern whose placeholder names are
pairwise distinct, the assembled operation contains exactly one
path-location Parameter per `(name)` placeholder, named by the
placeholder's content, in left-to-right order of the placeholders, and
every path-location parameter of the operation is required and of string
type.  Duplicate placeholder names collapse into a single parameter (see
the counterexample). -/
theorem path_params_in_order (defs : List (String × Schema)) (h : Handler)
    (route : String) (op : Operation) (defs' : List (String × Schema)) (log : List String)
    (hnd : (findPathParams route).Nodup)
    (heq : routeOperation defs h route = .ok (op, defs') log) :
    op.parameters.filter (fun p => p.inLoc == "path")
      = (findPathParams route).map pathParam ∧
    ∀ p ∈ op.parameters, p.inLoc = "path" → p.required = true ∧ p.paramType = "string" := by
  unfold routeOperation at heq
  cases hp : payloadStep defs h.payloadType newOperation with
  | panics => rw [hp] at heq; exact absurd heq (by simp [PResult.bind])
  | ok od l1 =>
    rw [hp] at heq
    simp only [PResult.bind] at heq
    cases hr : responseStep od.2 h.responseType od.1 with
    | panics => rw [hr] at heq; exact absurd heq (by simp)
    | ok od2 l2 =>
      rw [hr] at heq
      injection heq with h1 _
      have hop : op = pathParamsStep route od2.1 := (congrArg Prod.fst h1).symm
      have hbody : ∀ q ∈ od2.1.parameters, q.inLoc ≠ "path" := by
        have hps2 : od2.1.parameters = od.1.parameters :=
          responseStep_parameters od.2 h.responseType od.1 od2.1 od2.2 l2 (by rw [hr])
        rcases payloadStep_parameters defs h.payloadType od.1 od.2 l1 (by rw [hp])
          with h0 | ⟨pt, _, hps⟩
        · rw [hps2, h0]; intro q hq; simp at hq
        · rw [hps2, hps]
          intro q hq
          have hq' : q = bodyParam (getName pt) (refProperty ("#/definitions/" ++ getName pt)) := by
            simpa using hq
          subst hq'
          simp [bodyParam]
      have hfil0 : od2.1.parameters.filter (fun p => p.inLoc == "path") = [] := by
        rw [List.filter_eq_nil_iff]
        intro q hq
        simpa using hbody q hq
      have hfilter : (pathParamsStep route od2.1).parameters.filter (fun p => p.inLoc == "path")
          = (findPathParams route).map pathParam := by
        unfold pathParamsStep
        rw [foldl_addParam_path (findPathParams route) od2.1 hnd
          (fun q hq hpath => absurd hpath (hbody q hq)), hfil0, List.nil_append]
      refine ⟨by rw [hop]; exact hfilter, ?_⟩
      intro p hp2 hpath
      have hp3 : p ∈ (pathParamsStep route od2.1).parameters := by rw [← hop]; exact hp2
      have hmem : p ∈ (findPathParams route).map pathParam := by
        rw [← hfilter, List.mem_filter]
        exact ⟨hp3, by simp [hpath]⟩
      rcases List.mem_map.mp hmem with ⟨n, _, hn⟩
      rw [← hn]
      exact ⟨rfl, rfl⟩

/-- C5 witness: the spec's example pattern with placeholders `id` and
`postId` yields exactly the two path parameters `id` and `postId`, in that
order. -/
theorem path_params_in_order_witness :
    usersOpEx.parameters.filter (fun p => p.inLoc == "path")
      = (findPathParams "/users/{id}/posts/{postId}").map pathParam :=
  (path_params_in_order [] ⟨none, none⟩ "/users/{id}/posts/{postId}"
    usersOpEx [] [] (by decide) rfl).1

end GHttp
